import Mathlib

/- Verification development for StreamStatus (StreamStatus.go): a
webhook-driven service that flips per-streamer status rows inside a
tracked markdown document and publishes the change through git.  Go
strings are modelled as lists of characters; strings.Contains,
strings.Replace with limit 1, strings.ToLower (on ASCII input) and
strings.Split are embedded below.  The git library and the filesystem
are external collaborators: their outcomes are inputs to the model and
the operations attempted against them are recorded as a trace. -/

namespace StreamStatus

/-- ASCII lowercasing of one character: uppercase ASCII letters map to
lowercase, everything else is fixed.  This agrees with Go
strings.ToLower exactly on ASCII characters; Go additionally applies
Unicode case mapping to non-ASCII letters, which this embedding does
not model, so every theorem about lowercased names carries an allAscii
hypothesis on the name. -/
def lowerChar (c : Char) : Char :=
  if 'A' ≤ c ∧ c ≤ 'Z' then Char.ofNat (c.toNat + 32) else c

/-- Lowercasing of a whole string; faithful to strings.ToLower only on
all-ASCII strings (see lowerChar). -/
def lowerStr (s : List Char) : List Char := s.map lowerChar

/-- All-ASCII strings: the domain of names on which lowerStr coincides
with Go strings.ToLower (character for character, length preserved). -/
def allAscii (s : List Char) : Bool := s.all (fun c => c.toNat < 128)

/-- Embedding of Go strings.Contains text pat: pat occurs as a
contiguous substring of text. -/
def containsSub (pat : List Char) : List Char → Bool
  | [] => pat.isEmpty
  | c :: t => pat.isPrefixOf (c :: t) || containsSub pat t

/-- Embedding of Go strings.Replace with limit 1: replace the first
occurrence of pat by rep; when pat does not occur the string is
returned unchanged; an empty pat inserts rep in front. -/
def replaceFirst (pat rep : List Char) : List Char → List Char
  | [] => if pat.isEmpty then rep else []
  | c :: t =>
    if pat.isPrefixOf (c :: t) then rep ++ (c :: t).drop pat.length
    else c :: replaceFirst pat rep t

/-- Offline status row for a streamer name: the Go format string
"&nbsp; | `%s`" from updateStreamStatus. -/
def offMarker (name : List Char) : List Char :=
  ("&nbsp; | `").data ++ name ++ ("`").data

/-- Online status row for a streamer name: the Go format string
"🟢 | `%s`" from updateStreamStatus. -/
def onMarker (name : List Char) : List Char :=
  ("🟢 | `").data ++ name ++ ("`").data

/-- The marker row encoding a given online state for a given name. -/
def statusMarker (online : Bool) (name : List Char) : List Char :=
  if online then onMarker name else offMarker name

/-- Embedding of updateStreamStatus (StreamStatus.go lines 164-198).
Input: the current document text, the streamer name, the desired online
state.  Output: the document text after the call, paired with a flag
that is true exactly when the Go function returns a NoChangeNeededError
(in which case the text is left untouched). -/
def updateStreamStatus (text streamer : List Char) (online : Bool) :
    List Char × Bool :=
  let streamerLower := lowerStr streamer
  if online then
    let offlineTextSearch :=
      if containsSub streamer text then offMarker streamer
      else offMarker streamerLower
    let onlineText := onMarker streamer
    let onlineTextLower := onMarker streamerLower
    if containsSub onlineText text || containsSub onlineTextLower text then
      (text, true)
    else
      (replaceFirst offlineTextSearch onlineText text, false)
  else
    let onlineTextSearch :=
      if containsSub streamer text then onMarker streamer
      else onMarker streamerLower
    let offlineText := offMarker streamer
    let offlineTextLower := offMarker streamerLower
    if containsSub offlineText text || containsSub offlineTextLower text then
      (text, true)
    else
      (replaceFirst onlineTextSearch offlineText text, false)

/-- Embedding of Go strings.Split with a one-character separator: the
split of the empty string is one empty field, and every separator
occurrence starts a new field. -/
def splitOnChar (sep : Char) : List (Char) → List (List Char)
  | [] => [[]]
  | c :: t =>
    if c = sep then [] :: splitOnChar sep t
    else
      match splitOnChar sep t with
      | [] => [[c]]
      | h :: r => (c :: h) :: r

/-- Default repository URL assigned in main (StreamStatus.go line 341). -/
def defaultRepoUrl : List Char :=
  ("https://github.com/infosecstreams/infosecstreams.github.io").data

/-- Value of the repoUrl variable after the conditional in main (lines
338-342): it is assigned only when SS_GH_REPO is unset or empty;
otherwise it keeps its zero value, the empty string. -/
def repoUrlOf (ssGhRepo : List Char) : List Char :=
  if ssGhRepo.length = 0 then defaultRepoUrl else []

/-- Element 4 of strings.Split(repoUrl, "/") computed in main (line
343); none models the index-out-of-range panic that crashes the
process at startup. -/
def repoPathOf (ssGhRepo : List Char) : Option (List Char) :=
  (splitOnChar '/' (repoUrlOf ssGhRepo))[4]?

/-- Repository and filesystem operations attempted during one cycle. -/
inductive GitOp
  | clone
  | openRepo
  | pull
  | readDoc
  | writeDoc
  | add
  | commit
  | push
  deriving DecidableEq

/-- Outcome of updateMarkdown: the process exited (os.Exit(-1) on read
failure), a NoChangeNeededError was returned, or nil was returned. -/
inductive MdOutcome
  | exited
  | noChange
  | completed
  deriving DecidableEq

/-- Outcomes of the git library and filesystem calls made in one cycle.
cloneErr none means PlainClone succeeded, some errStr gives the error
string; the Bools tell whether each later call succeeds.  Errors of
pull, write, add, commit and push are logged and otherwise ignored by
the Go code, so those flags never influence control flow. -/
structure CycleEnv where
  cloneErr : Option (List Char)
  openOk : Bool
  wtOk : Bool
  pullOk : Bool
  readRes : Option (List Char)
  writeOk : Bool
  addOk : Bool
  commitOk : Bool
  pushOk : Bool
  deriving DecidableEq

/-- The substring tested for in the clone error string (getRepo line
135). -/
def existsStr : List Char := ("exists").data

/-- Embedding of getRepo (lines 115-154): the operations attempted, in
order, and whether the function returns nil.  A failed clone whose
error mentions an existing repository falls back to PlainOpen followed
by a forced pull whose own error is discarded; any other clone error,
or a failing PlainOpen or Worktree call, is returned. -/
def getRepoM (env : CycleEnv) : List GitOp × Bool :=
  match env.cloneErr with
  | none => ([GitOp.clone], true)
  | some errStr =>
    if containsSub existsStr errStr = false then ([GitOp.clone], false)
    else if env.openOk = false then ([GitOp.clone, GitOp.openRepo], false)
    else if env.wtOk = false then ([GitOp.clone, GitOp.openRepo], false)
    else ([GitOp.clone, GitOp.openRepo, GitOp.pull], true)

/-- Embedding of updateMarkdown (lines 213-237): a getRepo error is only
logged; a read failure calls os.Exit(-1); a NoChangeNeededError from
updateStreamStatus is returned before the file is written; otherwise
the updated text is written (write errors only logged) and nil is
returned. -/
def updateMarkdownM (env : CycleEnv) (streamer : List Char)
    (online : Bool) : List GitOp × MdOutcome :=
  let g := getRepoM env
  match env.readRes with
  | none => (g.1 ++ [GitOp.readDoc], MdOutcome.exited)
  | some text =>
    let u := updateStreamStatus text streamer online
    if u.2 then (g.1 ++ [GitOp.readDoc], MdOutcome.noChange)
    else (g.1 ++ [GitOp.readDoc, GitOp.writeDoc], MdOutcome.completed)

/-- One inbound webhook request as seen by eventsubStatus, after the
external collaborators (body read, signature verification against the
shared secret, JSON decode) have produced their verdicts; challenge,
subType and broadcaster are the decoded fields. -/
structure WebhookReq where
  bodyReadOk : Bool
  sigValid : Bool
  decodeOk : Bool
  challenge : List Char
  subType : List Char
  broadcaster : List Char
  deriving DecidableEq

/-- What one call of eventsubStatus produces: the bytes written to the
HTTP response, the repository operations attempted, and whether the
process exited during the call. -/
structure HandlerResult where
  respBody : List Char
  gitOps : List GitOp
  exited : Bool
  deriving DecidableEq

/-- Subscription type string for offline events (line 300). -/
def offlineType : List Char := ("stream.offline").data

/-- Subscription type string for online events (line 315). -/
def onlineType : List Char := ("stream.online").data

/-- Acknowledgment body written for recognized events (lines 305, 320). -/
def okBody : List Char := ("ok").data

/-- Shared tail of the two event branches of eventsubStatus (lines
300-329): acknowledge with ok, run updateMarkdown, and only when it
returns nil run updateRepo (gitAdd, then gitCommit even when the add
failed) and pushRepo. -/
def handleEventM (env : CycleEnv) (online : Bool)
    (broadcaster : List Char) : HandlerResult :=
  let m := updateMarkdownM env broadcaster online
  match m.2 with
  | MdOutcome.exited => ⟨okBody, m.1, true⟩
  | MdOutcome.noChange => ⟨okBody, m.1, false⟩
  | MdOutcome.completed =>
      ⟨okBody, m.1 ++ [GitOp.add, GitOp.commit, GitOp.push], false⟩

/-- Embedding of eventsubStatus (lines 268-333): read the body, verify
the signature, decode, echo a non-empty challenge, and dispatch the two
recognized subscription types; anything else is logged and dropped. -/
def eventsubStatusM (env : CycleEnv) (req : WebhookReq) : HandlerResult :=
  if req.bodyReadOk = false then ⟨[], [], false⟩
  else if req.sigValid = false then ⟨[], [], false⟩
  else if req.decodeOk = false then ⟨[], [], false⟩
  else if req.challenge ≠ [] then ⟨req.challenge, [], false⟩
  else if req.subType = offlineType then handleEventM env false req.broadcaster
  else if req.subType = onlineType then handleEventM env true req.broadcaster
  else ⟨[], [], false⟩

/-- Characterization of List.isPrefixOf over characters. -/
theorem isPrefixOf_true_iff {l₁ l₂ : List Char} :
    l₁.isPrefixOf l₂ = true ↔ ∃ t, l₂ = l₁ ++ t := by
  rw [ List.isPrefixOf_iff_prefix]
  constructor
  · rintro ⟨t, ht⟩
    exact ⟨t, ht.symm⟩
  · rintro ⟨t, ht⟩
    exact ⟨t, ht.symm⟩

/-- Characterization of containsSub: the pattern occurs as an infix. -/
theorem containsSub_true_iff {pat s : List Char} :
    containsSub pat s = true ↔ ∃ x y, s = x ++ pat ++ y := by
  induction s with
  | nil =>
    constructor
    · intro h
      have hp : pat = [] := by
        simpa [containsSub, List.isEmpty_iff] using h
      exact ⟨[], [], by simp [hp]⟩
    · rintro ⟨x, y, hxy⟩
      obtain ⟨h1, h2⟩ := List.append_eq_nil.mp hxy.symm
      obtain ⟨h3, h4⟩ := List.append_eq_nil.mp h1
      simp [containsSub, h4]
  | cons c t ih =>
    constructor
    · intro h
      have h' : pat.isPrefixOf (c :: t) = true ∨ containsSub pat t = true := by
        simpa [containsSub] using h
      rcases h' with h1 | h2
      · obtain ⟨u, hu⟩ := isPrefixOf_true_iff.mp h1
        exact ⟨[], u, by simpa using hu⟩
      · obtain ⟨x, y, hxy⟩ := ih.mp h2
        exact ⟨c :: x, y, by simp [hxy]⟩
    · rintro ⟨x, y, hxy⟩
      cases x with
      | nil =>
        have h1 : pat.isPrefixOf (c :: t) = true :=
          isPrefixOf_true_iff.mpr ⟨y, by simpa using hxy⟩
        simp [containsSub, h1]
      | cons a x' =>
        rw [List.cons_append, List.cons_append] at hxy
        injection hxy with hca ht
        have h2 : containsSub pat t = true := ih.mpr ⟨x', y, ht⟩
        simp [containsSub, h2]

/-- A pattern that does not occur leaves replaceFirst as the identity. -/
theorem replaceFirst_of_not_contains {pat rep s : List Char}
    (h : containsSub pat s = false) : replaceFirst pat rep s = s := by
  induction s with
  | nil =>
    have hp : pat.isEmpty = false := by simpa [containsSub] using h
    simp [replaceFirst, hp]
  | cons c t ih =>
    have h' : pat.isPrefixOf (c :: t) = false ∧ containsSub pat t = false := by
      simpa [containsSub] using h
    simp [replaceFirst, h'.1, ih h'.2]

/-- Evaluation of replaceFirst when the pattern is an immediate prefix. -/
theorem replaceFirst_of_isPrefixOf {p rep s : List Char}
    (h : p.isPrefixOf s = true) :
    replaceFirst p rep s = rep ++ s.drop p.length := by
  cases s with
  | nil =>
    cases p with
    | nil => simp [replaceFirst]
    | cons a t => simp [List.isPrefixOf] at h
  | cons c t => simp [replaceFirst, h]

/-- replaceFirst on a contained pattern rewrites one occurrence. -/
theorem replaceFirst_decomp {pat rep s : List Char}
    (h : containsSub pat s = true) :
    ∃ x y, s = x ++ pat ++ y ∧ replaceFirst pat rep s = x ++ rep ++ y := by
  induction s with
  | nil =>
    have hp : pat = [] := by simpa [containsSub, List.isEmpty_iff] using h
    subst hp
    exact ⟨[], [], by simp, by simp [replaceFirst]⟩
  | cons c t ih =>
    cases hp : pat.isPrefixOf (c :: t) with
    | true =>
      obtain ⟨u, hu⟩ := isPrefixOf_true_iff.mp hp
      refine ⟨[], u, by simpa using hu, ?_⟩
      have hd : (c :: t).drop pat.length = u := by
        rw [hu]
        exact List.drop_left pat u
      rw [replaceFirst_of_isPrefixOf hp, hd]
      simp
    | false =>
      have h2 : containsSub pat t = true := by
        simpa [containsSub, hp] using h
      obtain ⟨x, y, hxy, hrw⟩ := ih h2
      exact ⟨c :: x, y, by simp [hxy], by simp [replaceFirst, hp, hrw]⟩

/-- An occurrence in the left part embeds into an append. -/
theorem occ_append_left {pat a : List Char} (b : List Char)
    (h : ∃ x y, a = x ++ pat ++ y) : ∃ x y, a ++ b = x ++ pat ++ y := by
  obtain ⟨x, y, hxy⟩ := h
  exact ⟨x, y ++ b, by simp [hxy]⟩

/-- An occurrence in the right part embeds into an append. -/
theorem occ_append_right {pat b : List Char} (a : List Char)
    (h : ∃ x y, b = x ++ pat ++ y) : ∃ x y, a ++ b = x ++ pat ++ y := by
  obtain ⟨x, y, hxy⟩ := h
  exact ⟨a ++ x, y, by simp [hxy]⟩

/-- An occurrence in an append lies in the left part, in the right part,
or crosses the boundary. -/
theorem occ_append_split {pat x y : List Char}
    (h : ∃ u v, x ++ y = u ++ pat ++ v) :
    (∃ u v, x = u ++ pat ++ v) ∨ (∃ u v, y = u ++ pat ++ v) ∨
    (∃ s₁ s₂, pat = s₁ ++ s₂ ∧ s₁ ≠ [] ∧ s₂ ≠ [] ∧
      (∃ u, x = u ++ s₁) ∧ (∃ v, y = s₂ ++ v)) := by
  obtain ⟨u, v, huv⟩ := h
  rw [List.append_assoc] at huv
  rcases List.append_eq_append_iff.mp huv with ⟨w, hw1, hw2⟩ | ⟨w, hw1, hw2⟩
  · right; left
    exact ⟨w, v, by rw [hw2, List.append_assoc]⟩
  · rcases List.append_eq_append_iff.mp hw2 with ⟨z, hz1, hz2⟩ | ⟨z, hz1, hz2⟩
    · left
      exact ⟨u, z, by rw [hw1, hz1, List.append_assoc]⟩
    · by_cases hwnil : w = []
      · subst hwnil
        right; left
        refine ⟨[], v, ?_⟩
        simp at hz1
        simp [hz2, hz1]
      · by_cases hznil : z = []
        · subst hznil
          left
          rw [List.append_nil] at hz1
          exact ⟨u, [], by rw [hw1, hz1]; simp⟩
        · right; right
          exact ⟨w, z, hz1, hwnil, hznil, ⟨u, hw1⟩, ⟨v, hz2⟩⟩

/-- Two lists related by a nonempty left factor share their head. -/
theorem head_of_append_eq {s v w : List Char}
    (h : w = s ++ v) (hs : s ≠ []) : w.head? = s.head? := by
  cases s with
  | nil => exact absurd rfl hs
  | cons a s' => simp [h]

/-- A known head is a member. -/
theorem mem_of_headq {s : List Char} {c : Char} (h : s.head? = some c) :
    c ∈ s := by
  cases s with
  | nil => simp at h
  | cons a t =>
    have : a = c := by simpa using h
    subst this
    simp

/-- The head of a nonempty right factor of p is a member of p. -/
theorem mem_of_split_head {p s₁ s₂ : List Char} {c : Char}
    (hp : p = s₁ ++ s₂) (hc : s₂.head? = some c) : c ∈ p := by
  have := mem_of_headq hc
  simp [hp]
  right
  exact this

/-- Value of Char.ofNat on valid code points. -/
theorem charOfNat_toNat {n : Nat} (h : n.isValidChar) :
    (Char.ofNat n).toNat = n := by
  simp [Char.ofNat, h, Char.ofNatAux, Char.toNat, UInt32.toNat,
    BitVec.toNat_ofNatLt]

/-- lowerChar can only produce a character outside the lowercase ASCII
letter range by fixing it, so such a character has a unique preimage. -/
theorem lowerChar_eq_char {c d : Char}
    (hd : d.toNat < 97 ∨ 122 < d.toNat) (h : lowerChar c = d) : c = d := by
  by_cases hc : 'A' ≤ c ∧ c ≤ 'Z'
  · exfalso
    rw [lowerChar, if_pos hc] at h
    have h1 : 65 ≤ c.toNat := hc.1
    have h2 : c.toNat ≤ 90 := hc.2
    have hv : (c.toNat + 32).isValidChar := Or.inl (by omega)
    have h3 := congrArg Char.toNat h
    rw [charOfNat_toNat hv] at h3
    rcases hd with hd | hd <;> omega
  · rwa [lowerChar, if_neg hc] at h

/-- Characters outside the lowercase ASCII letter range absent from a
string stay absent from its lowercasing. -/
theorem not_mem_lowerStr {s : List Char} {d : Char}
    (hd : d.toNat < 97 ∨ 122 < d.toNat) (h : d ∉ s) : d ∉ lowerStr s := by
  intro hm
  obtain ⟨c, hc, hlc⟩ := List.mem_map.mp hm
  exact h (lowerChar_eq_char hd hlc ▸ hc)

/-- The offline marker written as an explicit cons. -/
theorem offMarker_cons (name : List Char) :
    offMarker name = '&' :: ((("nbsp; | `").data ++ name) ++ ("`").data) :=
  rfl

/-- The online marker written as an explicit cons. -/
theorem onMarker_cons (name : List Char) :
    onMarker name = '🟢' :: (((" | `").data ++ name) ++ ("`").data) :=
  rfl

/-- Head of the offline marker. -/
theorem offMarker_headq (name : List Char) :
    (offMarker name).head? = some '&' := rfl

/-- Head of the online marker. -/
theorem onMarker_headq (name : List Char) :
    (onMarker name).head? = some '🟢' := rfl

/-- The offline marker is nonempty. -/
theorem offMarker_ne_nil (name : List Char) : offMarker name ≠ [] := by
  rw [offMarker_cons]
  simp

/-- The online marker is nonempty. -/
theorem onMarker_ne_nil (name : List Char) : onMarker name ≠ [] := by
  rw [onMarker_cons]
  simp

/-- Length of the offline marker. -/
theorem offMarker_length (name : List Char) :
    (offMarker name).length = name.length + 11 := by
  have h1 : ("&nbsp; | `").data.length = 10 := rfl
  have h2 : ("`").data.length = 1 := rfl
  simp only [offMarker, List.length_append, h1, h2]
  omega

/-- Length of the online marker. -/
theorem onMarker_length (name : List Char) :
    (onMarker name).length = name.length + 6 := by
  have h1 : ("🟢 | `").data.length = 5 := rfl
  have h2 : ("`").data.length = 1 := rfl
  simp only [onMarker, List.length_append, h1, h2]
  omega

/-- A character in the offline marker is a frame character or one of the
name's characters. -/
theorem mem_offMarker {name : List Char} {c : Char}
    (h : c ∈ offMarker name) : c ∈ ("&nbsp; | `").data ∨ c ∈ name := by
  simp only [offMarker, List.mem_append] at h
  rcases h with (h | h) | h
  · exact Or.inl h
  · exact Or.inr h
  · left
    have : c = '`' := by simpa using h
    subst this
    decide

/-- A character in the online marker is a frame character or one of the
name's characters. -/
theorem mem_onMarker {name : List Char} {c : Char}
    (h : c ∈ onMarker name) : c ∈ ("🟢 | `").data ∨ c ∈ name := by
  simp only [onMarker, List.mem_append] at h
  rcases h with (h | h) | h
  · exact Or.inl h
  · exact Or.inr h
  · left
    have : c = '`' := by simpa using h
    subst this
    decide

/-- The ampersand occurs in the offline marker only through the leading
frame character, never later. -/
theorem amp_not_mem_offMarker_tail {name : List Char} (h : '&' ∉ name) :
    '&' ∉ (offMarker name).tail := by
  rw [offMarker_cons]
  intro hm
  simp only [List.tail_cons, List.mem_append] at hm
  rcases hm with hm | hm
  · rcases hm with hm | hm
    · exact absurd hm (by decide)
    · exact h hm
  · exact absurd hm (by decide)

/-- The circle glyph occurs in the online marker only through the
leading frame character, never later. -/
theorem green_not_mem_onMarker_tail {name : List Char} (h : '🟢' ∉ name) :
    '🟢' ∉ (onMarker name).tail := by
  rw [onMarker_cons]
  intro hm
  simp only [List.tail_cons, List.mem_append] at hm
  rcases hm with hm | hm
  · rcases hm with hm | hm
    · exact absurd hm (by decide)
    · exact h hm
  · exact absurd hm (by decide)

/-- The ampersand does not occur in the online marker of an
ampersand-free name. -/
theorem amp_not_mem_onMarker {name : List Char} (h : '&' ∉ name) :
    '&' ∉ onMarker name := by
  intro hm
  rcases mem_onMarker hm with hm | hm
  · exact absurd hm (by decide)
  · exact h hm

/-- The circle glyph does not occur in the offline marker of a
glyph-free name. -/
theorem green_not_mem_offMarker {name : List Char} (h : '🟢' ∉ name) :
    '🟢' ∉ offMarker name := by
  intro hm
  rcases mem_offMarker hm with hm | hm
  · exact absurd hm (by decide)
  · exact h hm

/-- A pattern longer than the middle block, whose head does not occur in
the middle block and which avoids the middle block's head character,
cannot occur in a ++ q ++ b when it occurs in neither a nor b. -/
theorem no_occ_middle {p q a b : List Char} {cp cq : Char}
    (hq : q ≠ [])
    (hlen : q.length < p.length)
    (hheadp : p.head? = some cp)
    (hcpq : cp ∉ q)
    (hheadq : q.head? = some cq)
    (hcqp : cq ∉ p)
    (hpa : ¬ ∃ x y, a = x ++ p ++ y)
    (hpb : ¬ ∃ x y, b = x ++ p ++ y) :
    ¬ ∃ x y, a ++ q ++ b = x ++ p ++ y := by
  intro hocc
  rw [List.append_assoc] at hocc
  rcases occ_append_split hocc with h | h |
    ⟨s₁, s₂, hsp, hs₁, hs₂, ⟨u, hu⟩, ⟨v, hv⟩⟩
  · exact hpa h
  · rcases occ_append_split h with h' | h' |
      ⟨s₁, s₂, hsp, hs₁, hs₂, ⟨u, hu⟩, ⟨v, hv⟩⟩
    · obtain ⟨x, y, hxy⟩ := h'
      have hql : q.length = x.length + p.length + y.length := by
        simp [hxy]
        omega
      omega
    · exact hpb h'
    · -- crossing the q-to-b boundary: the head of p lands inside q
      have hh : s₁.head? = some cp := by
        rw [← hheadp]
        exact (head_of_append_eq hsp hs₁).symm
      exact hcpq (by rw [hu]; exact List.mem_append_right u (mem_of_headq hh))
  · -- crossing the a-to-q boundary: the head of q lands inside p
    have h1 : (q ++ b).head? = s₂.head? := head_of_append_eq hv hs₂
    have h2 : (q ++ b).head? = q.head? := by
      cases q with
      | nil => exact absurd rfl hq
      | cons a1 t1 => simp
    have h3 : s₂.head? = some cq := by rw [← h1, h2, hheadq]
    exact hcqp (mem_of_split_head hsp h3)

/-- When p does not occur inside a and p's head character does not recur
in p's tail, every occurrence of p in a ++ p ++ b starts at or after the
displayed one. -/
theorem first_occ_min {p a b u v : List Char} {c : Char}
    (hheadp : p.head? = some c)
    (htail : c ∉ p.tail)
    (hpa : ¬ ∃ x y, a = x ++ p ++ y)
    (heq : a ++ p ++ b = u ++ p ++ v) :
    a.length ≤ u.length := by
  rw [List.append_assoc, List.append_assoc] at heq
  rcases List.append_eq_append_iff.mp heq with ⟨w, hw1, hw2⟩ | ⟨w, hw1, hw2⟩
  · simp [hw1]
  · by_cases hwnil : w = []
    · subst hwnil
      rw [List.append_nil] at hw1
      simp [hw1]
    · rcases List.append_eq_append_iff.mp hw2 with ⟨z, hz1, hz2⟩ | ⟨z, hz1, hz2⟩
      · exact absurd ⟨u, z, by rw [hw1, hz1, List.append_assoc]⟩ hpa
      · by_cases hznil : z = []
        · subst hznil
          rw [List.append_nil] at hz1
          exact absurd ⟨u, [], by rw [hw1, ← hz1]; simp⟩ hpa
        · exfalso
          have h1 : (p ++ b).head? = z.head? := head_of_append_eq hz2 hznil
          have h2 : (p ++ b).head? = p.head? := by
            cases p with
            | nil => simp at hheadp
            | cons a1 t1 => simp
          have h3 : z.head? = some c := by rw [← h1, h2, hheadp]
          apply htail
          cases w with
          | nil => exact absurd rfl hwnil
          | cons cw w' =>
            have hpt : p.tail = w' ++ z := by rw [hz1]; simp
            rw [hpt]
            exact List.mem_append_right w' (mem_of_headq h3)

/-- replaceFirst rewrites exactly the displayed occurrence when no
occurrence starts earlier. -/
theorem replaceFirst_first_occ {p rep b : List Char} :
    ∀ a : List Char,
      (∀ u v : List Char, a ++ p ++ b = u ++ p ++ v → a.length ≤ u.length) →
      replaceFirst p rep (a ++ p ++ b) = a ++ rep ++ b := by
  intro a
  induction a with
  | nil =>
    intro _
    have hp : p.isPrefixOf (p ++ b) = true := isPrefixOf_true_iff.mpr ⟨b, rfl⟩
    rw [List.nil_append, replaceFirst_of_isPrefixOf hp, List.drop_left]
    simp
  | cons c a' ih =>
    intro h
    have hnp : p.isPrefixOf ((c :: a') ++ (p ++ b)) = false := by
      cases hq : p.isPrefixOf ((c :: a') ++ (p ++ b)) with
      | true =>
        obtain ⟨t, ht⟩ := isPrefixOf_true_iff.mp hq
        have := h [] t (by rw [List.append_assoc, ht]; simp)
        simp at this
      | false => rfl
    have ih' : ∀ u v : List Char,
        a' ++ p ++ b = u ++ p ++ v → a'.length ≤ u.length := by
      intro u v huv
      have := h (c :: u) v (by
        simp only [List.cons_append, List.append_assoc] at huv ⊢
        rw [huv])
      simpa using this
    have hstep : replaceFirst p rep (c :: (a' ++ (p ++ b))) =
        c :: replaceFirst p rep (a' ++ (p ++ b)) := by
      rw [replaceFirst]
      have hnp' : p.isPrefixOf (c :: (a' ++ (p ++ b))) = false := by
        simpa using hnp
      simp [hnp']
    rw [List.append_assoc, List.cons_append, hstep, ← List.append_assoc,
      ih ih']
    simp

/-- C1: for every document text and every all-ASCII entity name (the
domain where the embedded lowering agrees with strings.ToLower),
calling updateStreamStatus to mark the entity online when the document
already contains an online-marker row for that entity (original case
or all-lowercase) returns a NoChangeNeededError and leaves the
document text unchanged; symmetrically for marking offline when an
offline-marker row already exists. -/
theorem c1_idempotent_no_change (text streamer : List Char) (online : Bool)
    (hascii : allAscii streamer = true)
    (h : containsSub (statusMarker online streamer) text = true ∨
         containsSub (statusMarker online (lowerStr streamer)) text = true) :
    updateStreamStatus text streamer online = (text, true) := by
  cases online with
  | true =>
    rcases h with h | h <;> simp [statusMarker] at h <;>
      simp [updateStreamStatus, h]
  | false =>
    rcases h with h | h <;> simp [statusMarker] at h <;>
      simp [updateStreamStatus, h]

/-- Witness for C1 at a concrete document already showing acme online. -/
theorem c1_witness :
    allAscii (("acme").data) = true ∧
    (containsSub (statusMarker true (("acme").data)) (("🟢 | `acme`").data)
        = true ∨
     containsSub (statusMarker true (lowerStr (("acme").data)))
        (("🟢 | `acme`").data) = true) ∧
    updateStreamStatus (("🟢 | `acme`").data) (("acme").data) true
      = ((("🟢 | `acme`").data), true) :=
  ⟨by decide, Or.inl (by decide),
    c1_idempotent_no_change _ _ _ (by decide) (Or.inl (by decide))⟩

/-- C5: for every document in which the all-ASCII entity (the domain
where the embedded lowering agrees with strings.ToLower) has no status
row at all (neither marker, in either case form), updateStreamStatus
returns success (no NoChangeNeededError) and the document text is
unchanged. -/
theorem c5_absent_entity (text streamer : List Char) (online : Bool)
    (hascii : allAscii streamer = true)
    (h1 : containsSub (offMarker streamer) text = false)
    (h2 : containsSub (offMarker (lowerStr streamer)) text = false)
    (h3 : containsSub (onMarker streamer) text = false)
    (h4 : containsSub (onMarker (lowerStr streamer)) text = false) :
    updateStreamStatus text streamer online = (text, false) := by
  cases online with
  | true =>
    cases hc : containsSub streamer text with
    | true =>
      simp [updateStreamStatus, h3, h4, hc, replaceFirst_of_not_contains h1]
    | false =>
      simp [updateStreamStatus, h3, h4, hc, replaceFirst_of_not_contains h2]
  | false =>
    cases hc : containsSub streamer text with
    | true =>
      simp [updateStreamStatus, h1, h2, hc, replaceFirst_of_not_contains h3]
    | false =>
      simp [updateStreamStatus, h1, h2, hc, replaceFirst_of_not_contains h4]

/-- Witness for C5 at a concrete document without any acme row. -/
theorem c5_witness :
    (allAscii (("acme").data) = true ∧
     containsSub (offMarker (("acme").data)) (("hello world").data) = false ∧
     containsSub (offMarker (lowerStr (("acme").data))) (("hello world").data)
        = false ∧
     containsSub (onMarker (("acme").data)) (("hello world").data) = false ∧
     containsSub (onMarker (lowerStr (("acme").data))) (("hello world").data)
        = false) ∧
    updateStreamStatus (("hello world").data) (("acme").data) true
      = ((("hello world").data), false) :=
  ⟨⟨by decide, by decide, by decide, by decide, by decide⟩,
    c5_absent_entity _ _ _ (by decide) (by decide) (by decide) (by decide)
      (by decide)⟩

/-- C10: whenever SS_GH_REPO is set to a non-empty value, main leaves
repoUrl as the empty string, strings.Split of it has a single field,
and indexing field 4 is out of range, crashing the process at startup;
the configured URL is never used. -/
theorem c10_repo_env_crash (ssGhRepo : List Char) (h : ssGhRepo ≠ []) :
    repoUrlOf ssGhRepo = [] ∧
    splitOnChar '/' (repoUrlOf ssGhRepo) = [[]] ∧
    repoPathOf ssGhRepo = none := by
  have hlen : ¬ ssGhRepo.length = 0 := by
    intro hl
    exact h (List.length_eq_zero.mp hl)
  refine ⟨?_, ?_, ?_⟩
  · simp [repoUrlOf, hlen]
  · simp [repoUrlOf, hlen, splitOnChar]
  · simp [repoPathOf, repoUrlOf, hlen, splitOnChar]

/-- Witness for C10 at the concrete environment value x. -/
theorem c10_witness :
    ("x").data ≠ [] ∧
    (repoUrlOf (("x").data) = [] ∧
     splitOnChar '/' (repoUrlOf (("x").data)) = [[]] ∧
     repoPathOf (("x").data) = none) :=
  ⟨by decide, c10_repo_env_crash _ (by decide)⟩

/-- Counterexample to C4 as stated: the entity FooBar has its document
status row in all-lowercase form and is not already online, yet an
online update leaves the document unchanged, because the
originally-cased name occurs elsewhere in the text and the search then
looks only for the originally-cased row. -/
theorem c4_counterexample :
    containsSub (offMarker (lowerStr (("FooBar").data)))
      (("FooBar rocks! &nbsp; | `foobar`").data) = true ∧
    containsSub (onMarker (("FooBar").data))
      (("FooBar rocks! &nbsp; | `foobar`").data) = false ∧
    containsSub (onMarker (lowerStr (("FooBar").data)))
      (("FooBar rocks! &nbsp; | `foobar`").data) = false ∧
    updateStreamStatus (("FooBar rocks! &nbsp; | `foobar`").data)
      (("FooBar").data) true
      = ((("FooBar rocks! &nbsp; | `foobar`").data), false) := by
  refine ⟨by decide, by decide, by decide, by decide⟩

/-- C4 amended: for every all-ASCII entity name (the domain where the
embedded lowering agrees with strings.ToLower) with uppercase letters
whose originally-cased form occurs nowhere in the document and whose
document status row uses the all-lowercase form, updateStreamStatus
falls back to the lowercased row and rewrites it to the desired marker
carrying the originally-cased name, in both directions. -/
theorem c4_amended_lowercase_row (text streamer : List Char)
    (online : Bool)
    (hascii : allAscii streamer = true)
    (hup : lowerStr streamer ≠ streamer)
    (hname : containsSub streamer text = false)
    (hrow : containsSub (statusMarker (!online) (lowerStr streamer)) text
      = true)
    (h1 : containsSub (statusMarker online streamer) text = false)
    (h2 : containsSub (statusMarker online (lowerStr streamer)) text
      = false) :
    updateStreamStatus text streamer online =
      (replaceFirst (statusMarker (!online) (lowerStr streamer))
        (statusMarker online streamer) text, false) ∧
    containsSub (statusMarker online streamer)
      (updateStreamStatus text streamer online).1 = true ∧
    (updateStreamStatus text streamer online).1 ≠ text := by
  have hll : (lowerStr streamer).length = streamer.length :=
    List.length_map _ _
  cases online with
  | true =>
    simp only [Bool.not_true, statusMarker, if_pos, if_neg,
      Bool.false_eq_true, if_false, if_true] at hrow h1 h2 ⊢
    have heq : updateStreamStatus text streamer true =
        (replaceFirst (offMarker (lowerStr streamer)) (onMarker streamer)
          text, false) := by
      simp [updateStreamStatus, hname, h1, h2]
    obtain ⟨x, y, hxy, hrw⟩ :=
      @replaceFirst_decomp _ (onMarker streamer) _ hrow
    refine ⟨heq, ?_, ?_⟩
    · rw [heq]
      exact containsSub_true_iff.mpr ⟨x, y, hrw⟩
    · rw [heq]
      intro hE
      rw [hrw, hxy] at hE
      have hL := congrArg List.length hE
      simp only [List.length_append, onMarker_length, offMarker_length,
        hll] at hL
      omega
  | false =>
    simp only [Bool.not_false, statusMarker, if_pos, if_neg,
      Bool.false_eq_true, if_false, if_true] at hrow h1 h2 ⊢
    have heq : updateStreamStatus text streamer false =
        (replaceFirst (onMarker (lowerStr streamer)) (offMarker streamer)
          text, false) := by
      simp [updateStreamStatus, hname, h1, h2]
    obtain ⟨x, y, hxy, hrw⟩ :=
      @replaceFirst_decomp _ (offMarker streamer) _ hrow
    refine ⟨heq, ?_, ?_⟩
    · rw [heq]
      exact containsSub_true_iff.mpr ⟨x, y, hrw⟩
    · rw [heq]
      intro hE
      rw [hrw, hxy] at hE
      have hL := congrArg List.length hE
      simp only [List.length_append, onMarker_length, offMarker_length,
        hll] at hL
      omega

/-- Witness for C4 at the concrete lowercase row for FooBar. -/
theorem c4_witness :
    (allAscii (("FooBar").data) = true ∧
     lowerStr (("FooBar").data) ≠ ("FooBar").data ∧
     containsSub (("FooBar").data) (("&nbsp; | `foobar`").data) = false ∧
     containsSub (statusMarker (!true) (lowerStr (("FooBar").data)))
       (("&nbsp; | `foobar`").data) = true ∧
     containsSub (statusMarker true (("FooBar").data))
       (("&nbsp; | `foobar`").data) = false ∧
     containsSub (statusMarker true (lowerStr (("FooBar").data)))
       (("&nbsp; | `foobar`").data) = false) ∧
    (updateStreamStatus (("&nbsp; | `foobar`").data) (("FooBar").data) true =
      (replaceFirst (statusMarker (!true) (lowerStr (("FooBar").data)))
        (statusMarker true (("FooBar").data)) (("&nbsp; | `foobar`").data),
        false) ∧
     containsSub (statusMarker true (("FooBar").data))
       (updateStreamStatus (("&nbsp; | `foobar`").data) (("FooBar").data)
         true).1 = true ∧
     (updateStreamStatus (("&nbsp; | `foobar`").data) (("FooBar").data)
       true).1 ≠ ("&nbsp; | `foobar`").data) :=
  ⟨⟨by decide, by decide, by decide, by decide, by decide, by decide⟩,
    c4_amended_lowercase_row _ _ _ (by decide) (by decide) (by decide)
      (by decide) (by decide) (by decide)⟩

/-- The getRepo trace is one of three shapes, none of which stages,
commits or pushes. -/
theorem getRepoM_ops (env : CycleEnv) :
    (getRepoM env).1 = [GitOp.clone] ∨
    (getRepoM env).1 = [GitOp.clone, GitOp.openRepo] ∨
    (getRepoM env).1 = [GitOp.clone, GitOp.openRepo, GitOp.pull] := by
  cases hc : env.cloneErr with
  | none => simp [getRepoM, hc]
  | some e =>
    by_cases h : containsSub existsStr e = false
    · simp [getRepoM, hc, h]
    · cases ho : env.openOk <;> cases hw : env.wtOk <;>
        simp [getRepoM, hc, h, ho, hw]

/-- C6: a webhook request whose decoded body contains a non-empty
challenge string is answered with exactly that challenge string as the
response body, with no repository operation of any kind. -/
theorem c6_challenge_echo (env : CycleEnv) (req : WebhookReq)
    (hb : req.bodyReadOk = true) (hs : req.sigValid = true)
    (hd : req.decodeOk = true) (hch : req.challenge ≠ []) :
    eventsubStatusM env req = ⟨req.challenge, [], false⟩ := by
  simp [eventsubStatusM, hb, hs, hd, hch]

/-- Witness for C6 at a concrete challenge request. -/
theorem c6_witness :
    ("xyz123").data ≠ [] ∧
    eventsubStatusM ⟨none, true, true, true, none, true, true, true, true⟩
      ⟨true, true, true, ("xyz123").data, [], []⟩
      = ⟨("xyz123").data, [], false⟩ :=
  ⟨by decide, c6_challenge_echo _ _ rfl rfl rfl (by decide)⟩

/-- C7: a request whose signature fails verification is dropped before
decoding: no document mutation, no repository operation, and no
acknowledgment content written to the HTTP response. -/
theorem c7_invalid_signature (env : CycleEnv) (req : WebhookReq)
    (hb : req.bodyReadOk = true) (hs : req.sigValid = false) :
    eventsubStatusM env req = ⟨[], [], false⟩ := by
  simp [eventsubStatusM, hb, hs]

/-- Witness for C7 at a concrete tampered request. -/
theorem c7_witness :
    eventsubStatusM ⟨none, true, true, true, none, true, true, true, true⟩
      ⟨true, false, true, [], offlineType, ("acme").data⟩
      = ⟨[], [], false⟩ :=
  c7_invalid_signature _ _ rfl rfl

/-- C9: getRepo falls back to opening the local repository exactly when
the clone error mentions an existing repository, in which case a forced
pull is attempted and the function succeeds whatever the pull outcome,
while every other clone failure is returned as this cycle's error. -/
theorem c9_clone_fallback (env : CycleEnv) (errStr : List Char)
    (hc : env.cloneErr = some errStr) :
    (containsSub existsStr errStr = false →
      getRepoM env = ([GitOp.clone], false)) ∧
    (containsSub existsStr errStr = true → env.openOk = true →
      env.wtOk = true →
      getRepoM env = ([GitOp.clone, GitOp.openRepo, GitOp.pull], true)) ∧
    (GitOp.openRepo ∈ (getRepoM env).1 ↔
      containsSub existsStr errStr = true) := by
  refine ⟨?_, ?_, ?_⟩
  · intro h
    simp [getRepoM, hc, h]
  · intro h ho hw
    simp [getRepoM, hc, h, ho, hw]
  · cases h : containsSub existsStr errStr with
    | true =>
      cases ho : env.openOk <;> cases hw : env.wtOk <;>
        simp [getRepoM, hc, h, ho, hw]
    | false =>
      simp [getRepoM, hc, h]

/-- Witness for C9 at a concrete clone error mentioning existence. -/
theorem c9_witness :
    containsSub existsStr (("repository already exists").data) = true ∧
    getRepoM ⟨some (("repository already exists").data), true, true, false,
      none, true, true, true, true⟩
      = ([GitOp.clone, GitOp.openRepo, GitOp.pull], true) :=
  ⟨by decide, (c9_clone_fallback _ _ rfl).2.1 (by decide) rfl rfl⟩

/-- Counterexample to C3 as stated: on a verified offline event whose
document read fails, the handler terminates the whole process
(os.Exit(-1) in updateMarkdown), so a read failure is not confined to
the current sync cycle. -/
theorem c3_counterexample :
    (eventsubStatusM
      ⟨none, true, true, true, none, true, true, true, true⟩
      ⟨true, true, true, [], offlineType, ("acme").data⟩).exited = true := by
  decide

/-- C3 amended: the process exits during a handler call exactly when a
verified, decoded, recognized online or offline event reaches the
document read and the read fails; every other error (clone, pull,
write, add, commit, push) leaves the process alive. -/
theorem c3_amended_exit_on_read_failure (env : CycleEnv)
    (req : WebhookReq) :
    (eventsubStatusM env req).exited = true ↔
      (req.bodyReadOk = true ∧ req.sigValid = true ∧ req.decodeOk = true ∧
       req.challenge = [] ∧
       (req.subType = offlineType ∨ req.subType = onlineType) ∧
       env.readRes = none) := by
  cases hb : req.bodyReadOk with
  | false => simp [eventsubStatusM, hb]
  | true =>
    cases hs : req.sigValid with
    | false => simp [eventsubStatusM, hb, hs]
    | true =>
      cases hd : req.decodeOk with
      | false => simp [eventsubStatusM, hb, hs, hd]
      | true =>
        by_cases hch : req.challenge = []
        · by_cases h1 : req.subType = offlineType
          · cases hr : env.readRes with
            | none =>
              simp [eventsubStatusM, hb, hs, hd, hch, h1, handleEventM,
                updateMarkdownM, hr]
            | some doc =>
              cases hu : (updateStreamStatus doc req.broadcaster false).2 <;>
                simp [eventsubStatusM, hb, hs, hd, hch, h1, handleEventM,
                  updateMarkdownM, hr, hu]
          · by_cases h2 : req.subType = onlineType
            · have hno : ¬ (onlineType = offlineType) := by decide
              cases hr : env.readRes with
              | none =>
                simp [eventsubStatusM, hb, hs, hd, hch, h1, h2, hno,
                  handleEventM, updateMarkdownM, hr]
              | some doc =>
                cases hu :
                    (updateStreamStatus doc req.broadcaster true).2 <;>
                  simp [eventsubStatusM, hb, hs, hd, hch, h1, h2, hno,
                    handleEventM, updateMarkdownM, hr, hu]
            · simp [eventsubStatusM, hb, hs, hd, hch, h1, h2]
        · simp [eventsubStatusM, hb, hs, hd, hch]

/-- C8: for a verified, decoded, recognized event with a readable
document, a NoChangeNeeded outcome stops the cycle with no stage,
commit or push, and otherwise the handler attempts write, stage,
commit, push, in exactly that order, regardless of the success flags of
those steps (an error never undoes or skips a later step). -/
theorem c8_commit_push_order (env : CycleEnv) (req : WebhookReq)
    (doc : List Char) (online : Bool)
    (hb : req.bodyReadOk = true) (hs : req.sigValid = true)
    (hd : req.decodeOk = true) (hch : req.challenge = [])
    (ht : req.subType = (if online then onlineType else offlineType))
    (hr : env.readRes = some doc) :
    ((updateStreamStatus doc req.broadcaster online).2 = true →
      (eventsubStatusM env req).gitOps
        = (getRepoM env).1 ++ [GitOp.readDoc] ∧
      GitOp.add ∉ (eventsubStatusM env req).gitOps ∧
      GitOp.commit ∉ (eventsubStatusM env req).gitOps ∧
      GitOp.push ∉ (eventsubStatusM env req).gitOps) ∧
    ((updateStreamStatus doc req.broadcaster online).2 = false →
      (eventsubStatusM env req).gitOps =
        (getRepoM env).1 ++
          [GitOp.readDoc, GitOp.writeDoc, GitOp.add, GitOp.commit,
            GitOp.push]) := by
  have hev : eventsubStatusM env req
      = handleEventM env online req.broadcaster := by
    cases online with
    | true =>
      simp only [if_true] at ht
      have hno : ¬ (onlineType = offlineType) := by decide
      simp [eventsubStatusM, hb, hs, hd, hch, ht, hno]
    | false =>
      simp only [Bool.false_eq_true, if_false] at ht
      simp [eventsubStatusM, hb, hs, hd, hch, ht]
  constructor
  · intro hu
    have hm : updateMarkdownM env req.broadcaster online =
        ((getRepoM env).1 ++ [GitOp.readDoc], MdOutcome.noChange) := by
      simp [updateMarkdownM, hr, hu]
    rw [hev]
    refine ⟨by simp [handleEventM, hm], ?_, ?_, ?_⟩ <;>
      · simp only [handleEventM, hm]
        rcases getRepoM_ops env with hg | hg | hg <;> rw [hg] <;> decide
  · intro hu
    have hm : updateMarkdownM env req.broadcaster online =
        ((getRepoM env).1 ++ [GitOp.readDoc, GitOp.writeDoc],
          MdOutcome.completed) := by
      simp [updateMarkdownM, hr, hu]
    rw [hev]
    simp [handleEventM, hm]

/-- Witness for C8 at a concrete online event that flips the row. -/
theorem c8_witness :
    (updateStreamStatus (("&nbsp; | `acme`").data) (("acme").data) true).2
      = false ∧
    (eventsubStatusM
      ⟨none, true, true, true, some (("&nbsp; | `acme`").data), true, true,
        true, true⟩
      ⟨true, true, true, [], onlineType, ("acme").data⟩).gitOps =
      (getRepoM
        ⟨none, true, true, true, some (("&nbsp; | `acme`").data), true, true,
          true, true⟩).1 ++
        [GitOp.readDoc, GitOp.writeDoc, GitOp.add, GitOp.commit,
          GitOp.push] :=
  ⟨by decide,
    (c8_commit_push_order _ _ _ true rfl rfl rfl rfl (by decide) rfl).2
      (by decide)⟩

/-- Length of a lowercased string. -/
theorem lowerStr_length (s : List Char) : (lowerStr s).length = s.length :=
  List.length_map _ _

/-- A pattern with containsSub false has no occurrence. -/
theorem not_occ_of_contains_false {pat s : List Char}
    (h : containsSub pat s = false) : ¬ ∃ x y, s = x ++ pat ++ y := by
  intro hocc
  have ht := containsSub_true_iff.mpr hocc
  rw [h] at ht
  exact Bool.false_ne_true ht

/-- A pattern with no occurrence has containsSub false. -/
theorem contains_eq_false_of_not_occ {pat s : List Char}
    (h : ¬ ∃ x y, s = x ++ pat ++ y) : containsSub pat s = false := by
  cases hc : containsSub pat s with
  | true => exact absurd (containsSub_true_iff.mp hc) h
  | false => rfl

/-- Counterexample to C2 as stated: the document holds exactly one
status row for FooBar, the all-lowercase offline row, yet marking
online then offline yields a row carrying the originally-cased name, so
the original document text is not restored. -/
theorem c2_counterexample :
    containsSub (offMarker (lowerStr (("FooBar").data)))
      (("&nbsp; | `foobar`").data) = true ∧
    containsSub (offMarker (("FooBar").data)) (("&nbsp; | `foobar`").data)
      = false ∧
    containsSub (onMarker (("FooBar").data)) (("&nbsp; | `foobar`").data)
      = false ∧
    containsSub (onMarker (lowerStr (("FooBar").data)))
      (("&nbsp; | `foobar`").data) = false ∧
    (updateStreamStatus
      (updateStreamStatus (("&nbsp; | `foobar`").data) (("FooBar").data)
        true).1
      (("FooBar").data) false).1 = ("&nbsp; | `FooBar`").data ∧
    (updateStreamStatus
      (updateStreamStatus (("&nbsp; | `foobar`").data) (("FooBar").data)
        true).1
      (("FooBar").data) false).1 ≠ ("&nbsp; | `foobar`").data := by
  refine ⟨by decide, by decide, by decide, by decide, by decide, by decide⟩

/-- C2 amended: for a document whose unique status material for the
entity is a single offline-marker row written with the entity's
originally-cased name — no online marker in either case form, no other
occurrence of the offline marker, and no lowercase offline marker
unless the name is already all-lowercase — and an all-ASCII entity
name (the domain where the embedded lowering agrees with
strings.ToLower) free of the marker frame characters, marking the
entity online and then offline restores the original document text
exactly.  When the single row is instead written in all-lowercase for
a name with uppercase letters, the round trip rewrites the row with
the originally-cased name: see the counterexample.  The
frame-character hypotheses are load-bearing, not a convenience: see
c2_frame_characters_necessary below. -/
theorem c2_amended_round_trip (a b streamer : List Char)
    (hascii : allAscii streamer = true)
    (hamp : '&' ∉ streamer)
    (hgreen : '🟢' ∉ streamer)
    (hOffa : containsSub (offMarker streamer) a = false)
    (hOffb : containsSub (offMarker streamer) b = false)
    (hOnT : containsSub (onMarker streamer)
      (a ++ offMarker streamer ++ b) = false)
    (hOnLT : containsSub (onMarker (lowerStr streamer))
      (a ++ offMarker streamer ++ b) = false)
    (hOffL : lowerStr streamer = streamer ∨
      containsSub (offMarker (lowerStr streamer))
        (a ++ offMarker streamer ++ b) = false) :
    (updateStreamStatus (a ++ offMarker streamer ++ b) streamer true).2
      = false ∧
    updateStreamStatus
        (updateStreamStatus (a ++ offMarker streamer ++ b) streamer
          true).1
        streamer false
      = (a ++ offMarker streamer ++ b, false) := by
  have hgreenLow : '🟢' ∉ lowerStr streamer :=
    not_mem_lowerStr (Or.inr (by decide)) hgreen
  have hpaOff : ¬ ∃ x y, a = x ++ offMarker streamer ++ y :=
    not_occ_of_contains_false hOffa
  have hpbOff : ¬ ∃ x y, b = x ++ offMarker streamer ++ y :=
    not_occ_of_contains_false hOffb
  have hminOff : ∀ u v : List Char,
      a ++ offMarker streamer ++ b = u ++ offMarker streamer ++ v →
      a.length ≤ u.length := by
    intro u v h
    exact first_occ_min (offMarker_headq streamer)
      (amp_not_mem_offMarker_tail hamp) hpaOff h
  have hT1 : replaceFirst (offMarker streamer) (onMarker streamer)
      (a ++ offMarker streamer ++ b) = a ++ onMarker streamer ++ b :=
    replaceFirst_first_occ a hminOff
  have hcontains : containsSub streamer (a ++ offMarker streamer ++ b)
      = true := by
    apply containsSub_true_iff.mpr
    refine ⟨a ++ ("&nbsp; | `").data, ("`").data ++ b, ?_⟩
    simp [offMarker, List.append_assoc]
  have hstep1 : updateStreamStatus (a ++ offMarker streamer ++ b) streamer
      true = (a ++ onMarker streamer ++ b, false) := by
    simp only [updateStreamStatus, hcontains, hOnT, hOnLT, Bool.or_self,
      if_true, Bool.false_eq_true, if_false, hT1]
  have hOff1 : containsSub (offMarker streamer)
      (a ++ onMarker streamer ++ b) = false := by
    apply contains_eq_false_of_not_occ
    exact no_occ_middle (onMarker_ne_nil streamer)
      (by rw [onMarker_length, offMarker_length]; omega)
      (offMarker_headq streamer) (amp_not_mem_onMarker hamp)
      (onMarker_headq streamer) (green_not_mem_offMarker hgreen)
      hpaOff hpbOff
  have hOff2 : containsSub (offMarker (lowerStr streamer))
      (a ++ onMarker streamer ++ b) = false := by
    rcases hOffL with hle | hOffLT
    · rw [hle]
      exact hOff1
    · apply contains_eq_false_of_not_occ
      have hpaL : ¬ ∃ x y, a = x ++ offMarker (lowerStr streamer) ++ y := by
        rintro ⟨x, y, hxy⟩
        apply not_occ_of_contains_false hOffLT
        rw [List.append_assoc]
        exact occ_append_left _ ⟨x, y, hxy⟩
      have hpbL : ¬ ∃ x y, b = x ++ offMarker (lowerStr streamer) ++ y := by
        rintro ⟨x, y, hxy⟩
        apply not_occ_of_contains_false hOffLT
        rw [List.append_assoc]
        exact occ_append_right _ (occ_append_right _ ⟨x, y, hxy⟩)
      exact no_occ_middle (onMarker_ne_nil streamer)
        (by rw [onMarker_length, offMarker_length, lowerStr_length]; omega)
        (offMarker_headq (lowerStr streamer)) (amp_not_mem_onMarker hamp)
        (onMarker_headq streamer) (green_not_mem_offMarker hgreenLow)
        hpaL hpbL
  have hqa : ¬ ∃ x y, a = x ++ onMarker streamer ++ y := by
    rintro ⟨x, y, hxy⟩
    apply not_occ_of_contains_false hOnT
    rw [List.append_assoc]
    exact occ_append_left _ ⟨x, y, hxy⟩
  have hminOn : ∀ u v : List Char,
      a ++ onMarker streamer ++ b = u ++ onMarker streamer ++ v →
      a.length ≤ u.length := by
    intro u v h
    exact first_occ_min (onMarker_headq streamer)
      (green_not_mem_onMarker_tail hgreen) hqa h
  have hT2 : replaceFirst (onMarker streamer) (offMarker streamer)
      (a ++ onMarker streamer ++ b) = a ++ offMarker streamer ++ b :=
    replaceFirst_first_occ a hminOn
  have hcontains2 : containsSub streamer (a ++ onMarker streamer ++ b)
      = true := by
    apply containsSub_true_iff.mpr
    refine ⟨a ++ ("🟢 | `").data, ("`").data ++ b, ?_⟩
    simp [onMarker, List.append_assoc]
  have hstep2 : updateStreamStatus (a ++ onMarker streamer ++ b) streamer
      false = (a ++ offMarker streamer ++ b, false) := by
    simp only [updateStreamStatus, hcontains2, hOff1, hOff2, Bool.or_self,
      if_true, Bool.false_eq_true, if_false, hT2]
  rw [hstep1]
  exact ⟨rfl, hstep2⟩

/-- Witness for C2 at a concrete document with one cased offline row. -/
theorem c2_witness :
    (allAscii (("FooBar").data) = true ∧
     '&' ∉ (("FooBar").data) ∧
     '🟢' ∉ (("FooBar").data) ∧
     containsSub (offMarker (("FooBar").data)) (("X ").data) = false ∧
     containsSub (offMarker (("FooBar").data)) ((" Y").data) = false ∧
     containsSub (onMarker (("FooBar").data))
       ((("X ").data) ++ offMarker (("FooBar").data) ++ ((" Y").data))
       = false ∧
     containsSub (onMarker (lowerStr (("FooBar").data)))
       ((("X ").data) ++ offMarker (("FooBar").data) ++ ((" Y").data))
       = false ∧
     containsSub (offMarker (lowerStr (("FooBar").data)))
       ((("X ").data) ++ offMarker (("FooBar").data) ++ ((" Y").data))
       = false) ∧
    ((updateStreamStatus
        ((("X ").data) ++ offMarker (("FooBar").data) ++ ((" Y").data))
        (("FooBar").data) true).2 = false ∧
     updateStreamStatus
        (updateStreamStatus
          ((("X ").data) ++ offMarker (("FooBar").data) ++ ((" Y").data))
          (("FooBar").data) true).1
        (("FooBar").data) false
      = ((("X ").data) ++ offMarker (("FooBar").data) ++ ((" Y").data),
          false)) :=
  ⟨⟨by decide, by decide, by decide, by decide, by decide, by decide,
      by decide, by decide⟩,
    c2_amended_round_trip _ _ _ (by decide) (by decide) (by decide)
      (by decide) (by decide) (by decide) (by decide) (Or.inr (by decide))⟩

/-- The frame-character hypotheses of the round-trip theorem are
necessary, not a proof convenience.  For the all-ASCII,
already-lowercase name x`&nbsp; | `x the offline marker is
self-overlapping; with the context &nbsp; | `x` in front, every other
hypothesis of the amended round trip holds, yet the online rewrite
manufactures a fresh offline marker, the offline step then reports
NoChangeNeeded, and the text is not restored.  The same trace holds in
the Go program, since the name is ASCII and the matching is exact. -/
theorem c2_frame_characters_necessary :
    containsSub (offMarker (("x`&nbsp; | `x").data))
      (("&nbsp; | `x`").data) = false ∧
    containsSub (offMarker (("x`&nbsp; | `x").data)) ([] : List Char)
      = false ∧
    containsSub (onMarker (("x`&nbsp; | `x").data))
      ((("&nbsp; | `x`").data) ++ offMarker (("x`&nbsp; | `x").data) ++ [])
      = false ∧
    containsSub (onMarker (lowerStr (("x`&nbsp; | `x").data)))
      ((("&nbsp; | `x`").data) ++ offMarker (("x`&nbsp; | `x").data) ++ [])
      = false ∧
    lowerStr (("x`&nbsp; | `x").data) = ("x`&nbsp; | `x").data ∧
    allAscii (("x`&nbsp; | `x").data) = true ∧
    (updateStreamStatus
      (updateStreamStatus
        ((("&nbsp; | `x`").data) ++ offMarker (("x`&nbsp; | `x").data)
          ++ [])
        (("x`&nbsp; | `x").data) true).1
      (("x`&nbsp; | `x").data) false).2 = true ∧
    (updateStreamStatus
      (updateStreamStatus
        ((("&nbsp; | `x`").data) ++ offMarker (("x`&nbsp; | `x").data)
          ++ [])
        (("x`&nbsp; | `x").data) true).1
      (("x`&nbsp; | `x").data) false).1
      ≠ (("&nbsp; | `x`").data) ++ offMarker (("x`&nbsp; | `x").data)
          ++ [] := by
  refine ⟨by decide, by decide, by decide, by decide, by decide, by decide,
    by decide, by decide⟩

end StreamStatus
